import Mathlib

/-!
Verification of the rule-file parser and validator of the validate-rules
package (`src/packages/validate-rules/src/validate.ts`, together with its
`parser.ts` and `types.ts` modules).  The TypeScript source is shallowly
embedded below: every definition mirrors the corresponding JavaScript
construct, with strings modelled as their character sequences (JavaScript
string indices are UTF-16 code units; on the ASCII inputs the tool deals
with the two notions coincide).  JavaScript's `trim`, `toLowerCase`,
`toUpperCase` and the character classes of the regular expressions involved
are modelled on the ASCII range, which is the range the source exercises.
All definitions are structurally recursive so that concrete runs reduce
inside the kernel.
-/

namespace ValidateRules

/-! ### Character and string helpers (models of the JavaScript primitives) -/

/-- Whitespace as matched by the regex class and by `trim` (ASCII range). -/
def jsSpace (c : Char) : Bool :=
  c = ' ' || c = '\t' || c = '\n' || c = '\r' || c = '\x0b' || c = '\x0c'

/-- Word characters, the regex class of letters, digits and underscore. -/
def wordChar (c : Char) : Bool :=
  c.isAlphanum || c = '_'

/-- ASCII letters, the regex class used by the label/description split. -/
def alphaChar (c : Char) : Bool :=
  ('A' ≤ c && c ≤ 'Z') || ('a' ≤ c && c ≤ 'z')

/-- Lower-case one character (ASCII), as `toLowerCase` does on this range. -/
def lcChar (c : Char) : Char :=
  if 'A' ≤ c ∧ c ≤ 'Z' then Char.ofNat (c.toNat + 32) else c

/-- Upper-case one character (ASCII), as `toUpperCase` does on this range. -/
def ucChar (c : Char) : Char :=
  if 'a' ≤ c ∧ c ≤ 'z' then Char.ofNat (c.toNat - 32) else c

/-- Model of `String.prototype.toLowerCase`. -/
def lcStr (s : String) : String := ⟨s.data.map lcChar⟩

/-- Model of `String.prototype.toUpperCase`. -/
def ucStr (s : String) : String := ⟨s.data.map ucChar⟩

/-- Does the second list start with the first? -/
def startsWithL : List Char → List Char → Bool
  | _, [] => true
  | [], _ :: _ => false
  | c :: cs, p :: ps => c = p && startsWithL cs ps

/-- Model of `String.prototype.startsWith`. -/
def strStarts (s pat : String) : Bool := startsWithL s.data pat.data

/-- Model of `String.prototype.endsWith`. -/
def strEnds (s pat : String) : Bool := startsWithL s.data.reverse pat.data.reverse

/-- Does `needle` occur as a contiguous subsequence of `hay`? -/
def containsSeq (needle : List Char) : List Char → Bool
  | [] => needle.isEmpty
  | c :: rest => startsWithL (c :: rest) needle || containsSeq needle rest

/-- Model of `String.prototype.includes`. -/
def includesStr (hay needle : String) : Bool := containsSeq needle.data hay.data

/-- Strip leading and trailing whitespace, the model of `trim`. -/
def jsTrimChars (l : List Char) : List Char :=
  ((l.dropWhile jsSpace).reverse.dropWhile jsSpace).reverse

/-- Model of `String.prototype.trim`. -/
def jsTrim (s : String) : String := ⟨jsTrimChars s.data⟩

/-- Split a character list on every occurrence of a separator character,
the model of `split` with a one-character separator; never returns `[]`. -/
def splitChar (sep : Char) : List Char → List (List Char)
  | [] => [[]]
  | c :: rest =>
    let r := splitChar sep rest
    if c = sep then [] :: r
    else
      match r with
      | h :: t => (c :: h) :: t
      | [] => [[c]]

/-- Model of `String.prototype.split` with a one-character separator. -/
def strSplit (sep : Char) (s : String) : List String :=
  (splitChar sep s.data).map (fun l => ⟨l⟩)

/-- Model of `Array.prototype.join` on strings. -/
def joinSep (sep : String) : List String → String
  | [] => ""
  | [x] => x
  | x :: y :: rest => x ++ sep ++ joinSep sep (y :: rest)

/-- Drop the first `n` characters, the model of `slice(n)`. -/
def strDrop (s : String) (n : Nat) : String := ⟨s.data.drop n⟩

/-- Normalisation `replace(/\r\n/g, "\n")` performed on the raw file text. -/
def crlfChars : List Char → List Char
  | '\r' :: '\n' :: rest => '\n' :: crlfChars rest
  | c :: rest => c :: crlfChars rest
  | [] => []

/-- CRLF → LF normalisation applied to the file content before parsing. -/
def crlfNorm (s : String) : String := ⟨crlfChars s.data⟩

/-! ### Data model (`types.ts`) -/

/-- One labeled code block extracted from a rule body (`CodeExample`). -/
structure CodeExample where
  label : String
  description : Option String := none
  code : String
  language : Option String := none
  additionalText : Option String := none
deriving DecidableEq, Repr

/-- The structured result of parsing one rule file (`Rule`).  The impact
level is carried as the raw string the parser produced; validity against
the closed impact set is the validator's concern. -/
structure Rule where
  title : String
  impact : String
  impactDescription : Option String
  explanation : String
  examples : List CodeExample
  references : Option (List String)
  tags : Option (List String)
deriving DecidableEq, Repr

/-! ### Frontmatter extraction (`parser.ts`, lines 186–203) -/

/-- The triple-dash delimiter character sequence. -/
def dashes : List Char := ['-', '-', '-']

/-- Find the first occurrence of `---` in a character list and split
around it; returns the part before and the part after.  This models
`indexOf("---", 3)` applied to the text after its first three characters. -/
def splitTripleDash : List Char → Option (List Char × List Char)
  | [] => none
  | c :: rest =>
    if startsWithL (c :: rest) dashes then some ([], rest.drop 2)
    else (splitTripleDash rest).map (fun p => (c :: p.1, p.2))

/-- Split off a frontmatter slice: the text must start with `---` and
contain a second `---` at index ≥ 3; the result is the raw slice between
the delimiters and the remainder after the closing delimiter. -/
def fmSplit (t : String) : Option (String × String) :=
  if startsWithL t.data dashes then
    match splitTripleDash (t.data.drop 3) with
    | some (a, b) => some (⟨a⟩, ⟨b⟩)
    | none => none
  else none

/-- Strip one leading and one trailing quote character from a value, the
model of `value.replace(/^["']|["']$/g, "")`. -/
def stripQuotes (s : String) : String :=
  let l := s.data
  let l1 := match l with
    | c :: rest => if c = '"' ∨ c = '\'' then rest else l
    | [] => []
  let l2 := match l1.getLast? with
    | some c => if c = '"' ∨ c = '\'' then l1.dropLast else l1
    | none => l1
  ⟨l2⟩

/-- Record update for the frontmatter object: later assignments to the
same key override earlier ones (lookup finds the newest binding). -/
def rset (m : List (String × String)) (k v : String) : List (String × String) :=
  (k, v) :: m.filter (fun p => p.1 ≠ k)

/-- Parse the (already trimmed) frontmatter text into a key/value record:
each line is split on `:`; lines without a colon or with an empty key are
ignored; the value is the colon-joined remainder, trimmed and unquoted. -/
def parseFMBlock (s : String) : List (String × String) :=
  (strSplit '\n' s).foldl
    (fun m line =>
      match strSplit ':' line with
      | [] => m
      | [_] => m
      | k :: v :: vs =>
        if k = "" then m
        else rset m (jsTrim k) (stripQuotes (jsTrim (joinSep ":" (v :: vs)))))
    []

/-- Frontmatter extraction: the parsed mapping together with the body.
When no block is recognised the mapping is empty and the body is the
entire text. -/
def extractFM (t : String) : List (String × String) × String :=
  match fmSplit t with
  | some (a, b) => (parseFMBlock (jsTrim a), b)
  | none => ([], t)

/-- Look a key up in the frontmatter record. -/
def fmGet (fm : List (String × String)) (k : String) : Option String :=
  fm.lookup k

/-! ### Title extraction (`parser.ts`, lines 209–218) -/

/-- A second-level heading line: starts with two heading markers but not
three (`startsWith("##") && !startsWith("###")`). -/
def isH2 (l : String) : Bool :=
  strStarts l "##" && !(strStarts l "###")

/-- Index of the first line satisfying a predicate. -/
def findIdx2 (p : String → Bool) : List String → Option Nat
  | [] => none
  | a :: as => if p a then some 0 else (findIdx2 p as).map (· + 1)

/-- Strip the leading heading markers, the whitespace that follows them
and surrounding whitespace (`replace(/^##+\s*/, "").trim()`, applied only
to lines that begin with exactly two markers). -/
def stripHeading (l : String) : String :=
  jsTrim ⟨(l.data.dropWhile (fun c => c = '#')).dropWhile jsSpace⟩

/-- The body-inferred title and the index of the title line; when no
second-level heading exists the title is empty and the index is zero. -/
def titleOf (lines : List String) : String × Nat :=
  match findIdx2 isH2 lines with
  | some i => (stripHeading (lines.getD i ""), i)
  | none => ("", 0)

/-! ### The Impact marker (`parser.ts`, lines 244–254)

The source tests `line.includes("**Impact:")` (case-sensitive) and then
runs the case-insensitive regular expression
`/\*\*Impact:\s*(\w+(?:-\w+)?)\s*(?:\(([^)]+)\))?/i` over the line.  The
matcher below reproduces that regex: it scans positions left to right and
at each position tries the literal marker case-insensitively, then
whitespace, a word (optionally extended by a dash and a second word), more
whitespace, and an optional non-empty parenthesised description. -/

/-- Try to match the Impact pattern at the head of a character list;
returns the level group and the description group (empty when absent). -/
def matchImpactAt : List Char → Option (String × String)
  | '*' :: '*' :: c1 :: c2 :: c3 :: c4 :: c5 :: c6 :: ':' :: rest =>
    if [c1, c2, c3, c4, c5, c6].map lcChar = ['i', 'm', 'p', 'a', 'c', 't'] then
      let r1 := rest.dropWhile jsSpace
      let w := r1.takeWhile wordChar
      if w = [] then none
      else
        let r2 := r1.drop w.length
        let (g1, r3) :=
          match r2 with
          | '-' :: r2' =>
            let w2 := r2'.takeWhile wordChar
            if w2 = [] then (w, r2) else (w ++ '-' :: w2, r2'.drop w2.length)
          | _ => (w, r2)
        let r4 := r3.dropWhile jsSpace
        let desc :=
          match r4 with
          | '(' :: r5 =>
            let d := r5.takeWhile (fun c => ¬(c = ')'))
            match d, r5.drop d.length with
            | [], _ => ""
            | _ :: _, ')' :: _ => ⟨d⟩
            | _, _ => ""
          | _ => ""
        some (⟨g1⟩, desc)
    else none
  | _ => none

/-- Scan a line for the first position where the Impact pattern matches. -/
def findImpact : List Char → Option (String × String)
  | [] => none
  | c :: rest =>
    match matchImpactAt (c :: rest) with
    | some r => some r
    | none => findImpact rest

/-! ### The example label line (`parser.ts`, lines 281–304)

`/^\*\*([^:]+?):\*?\*?$/`: two emphasis markers, a non-empty colon-free
group, a colon, then at most two closing markers to end of line. -/

/-- Extract the label group of a label line, when the line matches. -/
def labelOfLine (line : String) : Option String :=
  match line.data with
  | '*' :: '*' :: rest =>
    let g := rest.takeWhile (fun c => ¬(c = ':'))
    match g, rest.drop g.length with
    | [], _ => none
    | _ :: _, ':' :: tail =>
      if tail = [] ∨ tail = ['*'] ∨ tail = ['*', '*'] then some ⟨g⟩ else none
    | _, _ => none
  | _ => none

/-- Strip trailing whitespace from a character list. -/
def trimRightWS (l : List Char) : List Char :=
  (l.reverse.dropWhile jsSpace).reverse

/-- The label/description split
`/^([A-Za-z]+(?:\s+[A-Za-z]+)*)\s*\(([^()]+)\)$/`: the full label must end
with a parenthesised, non-empty, parenthesis-free description preceded by
a run of whitespace-separated alphabetic words. -/
def descMatch (s : String) : Option (String × String) :=
  match s.data.getLast? with
  | some ')' =>
    let rl := s.data.dropLast.reverse
    let dR := rl.takeWhile (fun c => ¬(c = '(') ∧ ¬(c = ')'))
    match dR, rl.drop dR.length with
    | [], _ => none
    | _ :: _, '(' :: preR =>
      let g1 := (preR.dropWhile jsSpace).reverse
      match g1 with
      | [] => none
      | c0 :: _ =>
        if alphaChar c0 && g1.all (fun c => alphaChar c || jsSpace c) then
          some (⟨g1⟩, ⟨dR.reverse⟩)
        else none
    | _, _ => none
  | _ => none

/-- Derive the stored label and optional description from the matched
label group (`fullLabel` is the group after `trim`). -/
def splitLabelDesc (full : String) : String × Option String :=
  match descMatch full with
  | some (a, b) => (jsTrim a, some (jsTrim b))
  | none => (full, none)

/-! ### Reference link extraction (`parser.ts`, lines 307–327)

`/\[([^\]]+)\]\(([^)]+)\)/g` collects every markdown link on the line; the
URL group of each match is kept.  Recursion is driven by a character fuel
so that every equation is structural. -/

/-- Collect the URL of every `[text](url)` occurrence, scanning left to
right and resuming after each complete match. -/
def refUrlsAux : Nat → List Char → List String
  | 0, _ => []
  | _, [] => []
  | fuel + 1, '[' :: rest =>
    let t := rest.takeWhile (fun c => ¬(c = ']'))
    if t = [] then refUrlsAux fuel rest
    else
      match rest.drop t.length with
      | ']' :: '(' :: rest2 =>
        let u := rest2.takeWhile (fun c => ¬(c = ')'))
        if u = [] then refUrlsAux fuel rest
        else
          match rest2.drop u.length with
          | ')' :: rest3 => (⟨u⟩ : String) :: refUrlsAux fuel rest3
          | _ => refUrlsAux fuel rest
      | _ => refUrlsAux fuel rest
  | fuel + 1, _ :: rest => refUrlsAux fuel rest

/-- The reference URLs found on one line. -/
def refUrls (l : List Char) : List String := refUrlsAux l.length l

/-! ### The sectioning state machine (`parser.ts`, lines 220–349) -/

/-- The mutable locals of the parsing loop, threaded as explicit state. -/
structure ScanState where
  impact : String
  impactDescription : String
  explanation : String
  examples : List CodeExample
  currentExample : Option CodeExample
  inCodeBlock : Bool
  codeBlockLanguage : String
  codeBlockContent : List String
  afterCodeBlock : Bool
  additionalText : List String
  hasCodeBlockForCurrentExample : Bool
  references : List String
deriving DecidableEq, Repr

/-- The loop state before the first body line is processed. -/
def initState : ScanState :=
  { impact := "MEDIUM", impactDescription := "", explanation := "",
    examples := [], currentExample := none, inCodeBlock := false,
    codeBlockLanguage := "typescript", codeBlockContent := [],
    afterCodeBlock := false, additionalText := [],
    hasCodeBlockForCurrentExample := false, references := [] }

/-- Close the currently open example, attaching the accumulated trailing
prose when there is any, and push it onto the example list. -/
def pushCurrent (st : ScanState) : ScanState :=
  match st.currentExample with
  | some ce =>
    let ce' :=
      if st.additionalText = [] then ce
      else { ce with additionalText := some (joinSep "\n\n" st.additionalText) }
    { st with
      examples := st.examples ++ [ce']
      additionalText := []
      currentExample := none }
  | none => st

/-- One iteration of the parsing loop on one body line, mirroring the
branch order of the source: Impact marker, fence, in-code-block
accumulation, label line, reference line, regular text. -/
def step (st : ScanState) (line : String) : ScanState :=
  if includesStr line "**Impact:" then
    match findImpact line.data with
    | some (g, d) => { st with impact := ucStr g, impactDescription := d }
    | none => st
  else if strStarts line "```" then
    if st.inCodeBlock then
      { st with
        currentExample := st.currentExample.map
          (fun ce => { ce with
                       code := joinSep "\n" st.codeBlockContent
                       language := some st.codeBlockLanguage })
        codeBlockContent := []
        inCodeBlock := false
        afterCodeBlock := true }
    else
      { st with
        inCodeBlock := true
        hasCodeBlockForCurrentExample := true
        codeBlockLanguage :=
          (if jsTrim (strDrop line 3) = "" then "typescript"
           else jsTrim (strDrop line 3))
        codeBlockContent := []
        afterCodeBlock := false }
  else if st.inCodeBlock then
    { st with codeBlockContent := st.codeBlockContent ++ [line] }
  else
    match labelOfLine line with
    | some g =>
      let (lab, desc) := splitLabelDesc (jsTrim g)
      let st1 := pushCurrent st
      { st1 with
        afterCodeBlock := false
        hasCodeBlockForCurrentExample := false
        currentExample := some { label := lab, description := desc, code := "",
                                 language := some st.codeBlockLanguage } }
    | none =>
      if strStarts line "Reference:" || strStarts line "References:" then
        let st1 := pushCurrent st
        { st1 with references := st1.references ++ refUrls line.data }
      else if jsTrim line ≠ "" ∧ ¬(strStarts line "#" = true) then
        if st.currentExample = none ∧ st.inCodeBlock = false then
          { st with explanation :=
              st.explanation ++ (if st.explanation = "" then "" else "\n\n") ++ line }
        else if st.currentExample.isSome ∧
                (st.afterCodeBlock = true ∨ st.hasCodeBlockForCurrentExample = false) then
          { st with additionalText := st.additionalText ++ [line] }
        else st
      else st

/-- The body-inferred part of a rule before frontmatter precedence is
applied. -/
structure Core where
  title : String
  impact : String
  impactDescription : String
  explanation : String
  examples : List CodeExample
  references : List String
deriving DecidableEq, Repr

/-- The final loop state of a body parse: the state machine is run over
the lines after the title line, and any example still open at end of
input is closed and pushed. -/
def scanned (lines : List String) : ScanState :=
  pushCurrent ((lines.drop ((titleOf lines).2 + 1)).foldl step initState)

/-- Parse the lines of the rule body: find the title line, run the state
machine over the lines after it, and collect the inferred fields. -/
def parseFromLines (lines : List String) : Core :=
  { title := (titleOf lines).1
    impact := (scanned lines).impact
    impactDescription := (scanned lines).impactDescription
    explanation := (scanned lines).explanation
    examples := (scanned lines).examples
    references := (scanned lines).references }

/-! ### Merging frontmatter over the body (`parser.ts`, lines 351–366) -/

/-- The JavaScript `frontmatter.key || inferred` idiom: an absent or empty
frontmatter value falls back to the inferred one. -/
def orDefault (o : Option String) (d : String) : String :=
  match o with
  | some v => if v = "" then d else v
  | none => d

/-- Split a comma-separated frontmatter value and trim each element. -/
def splitComma (v : String) : List String :=
  (strSplit ',' v).map jsTrim

/-- Assemble the final `Rule`, giving frontmatter values precedence over
body-inferred ones exactly as the source's truthiness checks do. -/
def mergeFM (fm : List (String × String)) (core : Core) : Rule :=
  { title := orDefault (fmGet fm "title") core.title,
    impact := orDefault (fmGet fm "impact") core.impact,
    impactDescription :=
      (let s := orDefault (fmGet fm "impactDescription") core.impactDescription
       if s = "" then none else some s),
    explanation := orDefault (fmGet fm "explanation") (jsTrim core.explanation),
    examples := core.examples,
    references :=
      (match fmGet fm "references" with
       | some v =>
         if v ≠ "" then some (splitComma v)
         else if core.references = [] then none else some core.references
       | none => if core.references = [] then none else some core.references),
    tags :=
      (match fmGet fm "tags" with
       | some v => if v ≠ "" then some (splitComma v) else none
       | none => none) }

/-- The frontmatter record of a file text. -/
def fmOf (text : String) : List (String × String) :=
  (extractFM (crlfNorm text)).1

/-- The body of a file text, trimmed and split into lines. -/
def bodyLines (text : String) : List String :=
  strSplit '\n' (jsTrim (extractFM (crlfNorm text)).2)

/-- The pure part of `parseRuleFile`: from the raw file text to the
parsed `Rule`. -/
def parseRule (text : String) : Rule :=
  mergeFM (fmOf text) (parseFromLines (bodyLines text))

/-! ### The validator (`validate.ts`) -/

/-- A reported validation failure: file identifier plus message. -/
structure ValidationError where
  file : String
  message : String
deriving DecidableEq, Repr

/-- The closed set of valid impact levels (`VALID_IMPACTS`). -/
def VALID_IMPACTS : List String :=
  ["CRITICAL", "HIGH", "MEDIUM-HIGH", "MEDIUM", "LOW-MEDIUM", "LOW"]

/-- Check 1: the title must be non-empty after trimming. -/
def checkTitle (rule : Rule) (file : String) : List ValidationError :=
  if jsTrim rule.title = "" then [⟨file, "Missing or empty title"⟩] else []

/-- Check 2: the explanation must be non-empty after trimming. -/
def checkExplanation (rule : Rule) (file : String) : List ValidationError :=
  if jsTrim rule.explanation = "" then [⟨file, "Missing or empty explanation"⟩]
  else []

/-- The examples whose code is truthy and non-empty after trimming
(`codeExamples` in the source). -/
def codeExamplesOf (rule : Rule) : List CodeExample :=
  rule.examples.filter (fun e => !(e.code == "") && !(jsTrim e.code == ""))

/-- Does some code example carry an incorrect-style label
(case-insensitive substring match)? -/
def hasIncorrectLabel (l : List CodeExample) : Bool :=
  l.any (fun e =>
    includesStr (lcStr e.label) "incorrect" ||
    includesStr (lcStr e.label) "wrong" ||
    includesStr (lcStr e.label) "bad")

/-- Does some code example carry a correct-style label
(case-insensitive substring match)? -/
def hasCorrectLabel (l : List CodeExample) : Bool :=
  l.any (fun e =>
    includesStr (lcStr e.label) "correct" ||
    includesStr (lcStr e.label) "good" ||
    includesStr (lcStr e.label) "usage" ||
    includesStr (lcStr e.label) "implementation" ||
    includesStr (lcStr e.label) "example")

/-- Check 3: examples must exist; among those with code, an
incorrect-style or a correct-style label must appear. -/
def checkExamples (rule : Rule) (file : String) : List ValidationError :=
  if rule.examples = [] then
    [⟨file, "Missing examples (need at least one incorrect and one correct example)"⟩]
  else if codeExamplesOf rule = [] then [⟨file, "Missing code examples"⟩]
  else if hasIncorrectLabel (codeExamplesOf rule) = false ∧
          hasCorrectLabel (codeExamplesOf rule) = false then
    [⟨file, "Missing incorrect or correct examples"⟩]
  else []

/-- Check 4: the impact level must belong to the closed set. -/
def checkImpact (rule : Rule) (file : String) : List ValidationError :=
  if VALID_IMPACTS.contains rule.impact then []
  else
    [⟨file, "Invalid impact level: " ++ rule.impact ++ ". Must be one of: "
            ++ joinSep ", " VALID_IMPACTS⟩]

/-- Model of `validateRule`: the four checks in source order, accumulated. -/
def validateRule (rule : Rule) (file : String) : List ValidationError :=
  checkTitle rule file ++ checkExplanation rule file ++
  checkExamples rule file ++ checkImpact rule file

/-! ### The run loop (`validate.ts`, lines 91–136)

The I/O of one run is abstracted into outcome values: each candidate file
either parses to a `Rule` or throws with a message, and each configured
skill's directory either lists to a file sequence or fails.  The loop
structure, the per-file recovery and the top-level catch are modelled
exactly as in the source. -/

/-- One directory entry together with the outcome of reading/parsing it. -/
structure FileEntry where
  name : String
  outcome : Except String Rule
deriving Repr

/-- One configured skill together with the outcome of listing its rule
directory. -/
structure SkillRun where
  name : String
  dir : Except String (List FileEntry)
deriving Repr

/-- The observable outcome of one run: the collected errors, the process
exit code, and how many skills were fully processed before the run ended. -/
structure RunResult where
  errors : List ValidationError
  exitCode : Nat
  skillsProcessed : Nat
deriving DecidableEq, Repr

/-- Is a directory entry a candidate rule file
(`f.endsWith(".md") && !f.startsWith("_")`)? -/
def isRuleFileName (n : String) : Bool :=
  strEnds n ".md" && !(strStarts n "_")

/-- The errors one candidate file contributes: its validation errors when
it parses, or one recovery error with the `Failed to parse:` prefix when
reading/parsing throws. -/
def fileErrors (skillName : String) (f : FileEntry) : List ValidationError :=
  match f.outcome with
  | .ok rule => validateRule rule (skillName ++ "/" ++ f.name)
  | .error m => [⟨skillName ++ "/" ++ f.name, "Failed to parse: " ++ m⟩]

/-- The errors one listed skill contributes: its candidate files in
directory order, each recovered individually. -/
def skillFileErrors (s : SkillRun) (fs : List FileEntry) : List ValidationError :=
  (fs.filter (fun f => isRuleFileName f.name)).flatMap (fileErrors s.name)

/-- The skill loop: a directory-listing failure escapes to the top-level
catch, which exits with status 1 at once; otherwise the per-file errors
are accumulated and the loop continues.  At the end the exit status is 1
exactly when errors were collected. -/
def runSkills : List SkillRun → List ValidationError → Nat → RunResult
  | [], acc, k => ⟨acc, if acc = [] then 0 else 1, k⟩
  | s :: rest, acc, k =>
    match s.dir with
    | .error _ => ⟨acc, 1, k⟩
    | .ok fs => runSkills rest (acc ++ skillFileErrors s fs) (k + 1)

/-- One whole run of `validate()` over the configured skills. -/
def runValidate (skills : List SkillRun) : RunResult :=
  runSkills skills [] 0

/-! ### A definition taken from the specification's words, for comparison

The specification describes the frontmatter block as delimited by "a
triple-dash marker on its own line at the start and a second triple-dash
marker later in the file".  The predicate below formalises that wording
literally: the first line is exactly the delimiter and some later line is
exactly the delimiter. -/

/-- Spec-side condition: both frontmatter delimiters stand on lines of
their own. -/
def specOwnLineDelims (t : String) : Bool :=
  match strSplit '\n' t with
  | first :: rest => first == "---" && rest.any (fun l => l == "---")
  | [] => false

/-! ## Helper lemmas -/

theorem startsWithL_eq {p l : List Char} (h : startsWithL l p = true) :
    l = p ++ l.drop p.length := by
  induction p generalizing l with
  | nil => simp
  | cons c cs ih =>
    cases l with
    | nil => simp [startsWithL] at h
    | cons a as =>
      simp only [startsWithL, Bool.and_eq_true, decide_eq_true_eq] at h
      obtain ⟨rfl, h2⟩ := h
      simpa using ih h2

theorem startsWithL_of_append (p r : List Char) :
    startsWithL (p ++ r) p = true := by
  induction p with
  | nil => cases r <;> rfl
  | cons c cs ih => simp [startsWithL, ih]

theorem splitTripleDash_eq {l a b : List Char}
    (h : splitTripleDash l = some (a, b)) : l = a ++ dashes ++ b := by
  induction l generalizing a with
  | nil => simp [splitTripleDash] at h
  | cons c rest ih =>
    rw [splitTripleDash] at h
    split at h
    · rename_i hs
      obtain ⟨rfl, rfl⟩ := Prod.mk.injEq .. ▸ Option.some.injEq .. ▸ h
      have := startsWithL_eq hs
      simpa [dashes] using this
    · rename_i hs
      cases hsp : splitTripleDash rest with
      | none => rw [hsp] at h; simp at h
      | some p =>
        obtain ⟨a', b'⟩ := p
        rw [hsp] at h
        simp at h
        obtain ⟨h1, h2⟩ := h
        subst h1
        subst h2
        simpa using ih hsp

theorem splitTripleDash_min {l a b : List Char}
    (h : splitTripleDash l = some (a, b)) :
    ∀ a' b' : List Char, l = a' ++ dashes ++ b' → a.length ≤ a'.length := by
  induction l generalizing a with
  | nil => simp [splitTripleDash] at h
  | cons c rest ih =>
    rw [splitTripleDash] at h
    split at h
    · obtain ⟨rfl, rfl⟩ := Prod.mk.injEq .. ▸ Option.some.injEq .. ▸ h
      intro a' b' _
      exact Nat.zero_le _
    · rename_i hs
      cases hsp : splitTripleDash rest with
      | none => rw [hsp] at h; simp at h
      | some p =>
        obtain ⟨a0, b0⟩ := p
        rw [hsp] at h
        simp at h
        obtain ⟨h1, h2⟩ := h
        subst h1
        subst h2
        intro a' b' heq
        cases a' with
        | nil =>
          exfalso
          apply hs
          rw [List.nil_append] at heq
          rw [heq]
          exact startsWithL_of_append dashes b'
        | cons c' a'' =>
          simp only [List.cons_append, List.cons.injEq] at heq
          obtain ⟨rfl, heq2⟩ := heq
          simpa using Nat.succ_le_succ (ih hsp a'' b' heq2)

theorem splitTripleDash_exists (a : List Char) :
    ∀ b, (splitTripleDash (a ++ dashes ++ b)).isSome = true := by
  induction a with
  | nil =>
    intro b
    rw [List.nil_append, splitTripleDash.eq_def]
    cases b <;> simp [dashes, startsWithL]
  | cons c a' ih =>
    intro b
    rw [List.cons_append]
    simp only [splitTripleDash]
    split
    · rfl
    · simpa using ih b

theorem findIdx2_none {p : String → Bool} {lines : List String}
    (h : ∀ x ∈ lines, p x = false) : findIdx2 p lines = none := by
  induction lines with
  | nil => rfl
  | cons a as ih =>
    have ha : p a = false := h a (List.mem_cons_self a as)
    have hrest := ih fun x hx => h x (List.mem_cons_of_mem _ hx)
    simp [findIdx2, ha, hrest]

theorem findIdx2_append_cons {p : String → Bool} {pre : List String}
    {h : String} {rest : List String}
    (hpre : ∀ x ∈ pre, p x = false) (hh : p h = true) :
    findIdx2 p (pre ++ h :: rest) = some pre.length := by
  induction pre with
  | nil => simp [findIdx2, hh]
  | cons a as ih =>
    have ha : p a = false := hpre a (List.mem_cons_self a as)
    have hrest := ih fun x hx => hpre x (List.mem_cons_of_mem _ hx)
    simp [List.cons_append, findIdx2, ha, hrest]

theorem getD_append_cons {pre : List String} {h d : String} {rest : List String} :
    (pre ++ h :: rest).getD pre.length d = h := by
  induction pre with
  | nil => rfl
  | cons a as ih => simpa using ih

theorem drop_append_cons {pre : List String} {h : String} {rest : List String} :
    (pre ++ h :: rest).drop (pre.length + 1) = rest := by
  induction pre with
  | nil => rfl
  | cons a as ih => simp [ih]

theorem titleOf_append_cons {pre : List String} {hline : String} {rest : List String}
    (hpre : ∀ x ∈ pre, isH2 x = false) (hh : isH2 hline = true) :
    titleOf (pre ++ hline :: rest) = (stripHeading hline, pre.length) := by
  unfold titleOf
  rw [findIdx2_append_cons hpre hh]
  show (stripHeading ((pre ++ hline :: rest).getD pre.length ""), pre.length) = _
  rw [getD_append_cons]

theorem titleOf_no_heading {lines : List String}
    (h : ∀ x ∈ lines, isH2 x = false) : titleOf lines = ("", 0) := by
  unfold titleOf
  rw [findIdx2_none h]

theorem scanned_append_cons {pre : List String} {hline : String} {rest : List String}
    (hpre : ∀ x ∈ pre, isH2 x = false) (hh : isH2 hline = true) :
    scanned (pre ++ hline :: rest) = pushCurrent (rest.foldl step initState) := by
  unfold scanned
  rw [titleOf_append_cons hpre hh]
  show pushCurrent (((pre ++ hline :: rest).drop (pre.length + 1)).foldl step initState) = _
  rw [drop_append_cons]

/-! ## Claim theorems -/

/-- C9: when the frontmatter block carries an `explanation` key with a
non-empty value, the parsed Rule's explanation equals that frontmatter
value, regardless of the body — explanation is a frontmatter-overridable
field at the public interface. -/
theorem c9_fm_explanation (text v : String)
    (h : fmGet (fmOf text) "explanation" = some v) (hv : v ≠ "") :
    (parseRule text).explanation = v := by
  simp [parseRule, mergeFM, h, orDefault, hv]

/-- Witness for C9 at a concrete file whose body prose conflicts with the
frontmatter explanation. -/
theorem c9_fm_explanation_witness :
    (parseRule "---\nexplanation: From the frontmatter\n---\n## T\nBody prose").explanation
      = "From the frontmatter" :=
  c9_fm_explanation _ _ (by decide) (by decide)

/-- C1 fails as stated: a frontmatter line `title:` defines the `title`
field (with an empty value), yet the parsed title is the body heading, not
the frontmatter value — the JavaScript truthiness fallback ignores empty
frontmatter values. -/
theorem c1_counterexample :
    fmGet (fmOf "---\ntitle:\n---\n## Body") "title" = some "" ∧
    (parseRule "---\ntitle:\n---\n## Body").title = "Body" := by
  decide

/-- C1 (amended): frontmatter precedence for `title`, `impact`,
`impactDescription`, `references` and `tags` holds whenever the
frontmatter value is non-empty: the parsed field then carries the
frontmatter value (comma-split and trimmed for the two list fields)
regardless of any conflicting body content. -/
theorem c1_fm_precedence (text v : String) :
    (fmGet (fmOf text) "title" = some v → v ≠ "" → (parseRule text).title = v) ∧
    (fmGet (fmOf text) "impact" = some v → v ≠ "" → (parseRule text).impact = v) ∧
    (fmGet (fmOf text) "impactDescription" = some v → v ≠ "" →
       (parseRule text).impactDescription = some v) ∧
    (fmGet (fmOf text) "references" = some v → v ≠ "" →
       (parseRule text).references = some (splitComma v)) ∧
    (fmGet (fmOf text) "tags" = some v → v ≠ "" →
       (parseRule text).tags = some (splitComma v)) := by
  refine ⟨fun h hv => ?_, fun h hv => ?_, fun h hv => ?_, fun h hv => ?_, fun h hv => ?_⟩ <;>
    simp [parseRule, mergeFM, h, orDefault, hv]

set_option maxRecDepth 8192 in
/-- Witness for C1 (amended) at a file whose body conflicts with every
frontmatter field. -/
theorem c1_fm_precedence_witness :
    (parseRule "---\ntitle: FM Title\nimpact: LOW\nimpactDescription: fm desc\nreferences: https://a, https://b\ntags: x, y\n---\n## Body Title\n**Impact: HIGH (body desc)**\nReference: [c](https://c)").title = "FM Title" ∧
    (parseRule "---\ntitle: FM Title\nimpact: LOW\nimpactDescription: fm desc\nreferences: https://a, https://b\ntags: x, y\n---\n## Body Title\n**Impact: HIGH (body desc)**\nReference: [c](https://c)").impact = "LOW" ∧
    (parseRule "---\ntitle: FM Title\nimpact: LOW\nimpactDescription: fm desc\nreferences: https://a, https://b\ntags: x, y\n---\n## Body Title\n**Impact: HIGH (body desc)**\nReference: [c](https://c)").impactDescription = some "fm desc" ∧
    (parseRule "---\ntitle: FM Title\nimpact: LOW\nimpactDescription: fm desc\nreferences: https://a, https://b\ntags: x, y\n---\n## Body Title\n**Impact: HIGH (body desc)**\nReference: [c](https://c)").references = some ["https://a", "https://b"] ∧
    (parseRule "---\ntitle: FM Title\nimpact: LOW\nimpactDescription: fm desc\nreferences: https://a, https://b\ntags: x, y\n---\n## Body Title\n**Impact: HIGH (body desc)**\nReference: [c](https://c)").tags = some ["x", "y"] := by
  refine ⟨(c1_fm_precedence _ "FM Title").1 (by decide) (by decide),
          (c1_fm_precedence _ "LOW").2.1 (by decide) (by decide),
          (c1_fm_precedence _ "fm desc").2.2.1 (by decide) (by decide),
          ((c1_fm_precedence _ "https://a, https://b").2.2.2.1 (by decide) (by decide)).trans (by decide),
          ((c1_fm_precedence _ "x, y").2.2.2.2 (by decide) (by decide)).trans (by decide)⟩

/-- Every error produced by the title check carries the fixed message. -/
theorem checkTitle_msg {rule : Rule} {f : String} {e : ValidationError}
    (h : e ∈ checkTitle rule f) : e.message = "Missing or empty title" := by
  unfold checkTitle at h
  split at h
  · simp at h; rw [h]
  · simp at h

/-- Every error produced by the explanation check carries the fixed
message. -/
theorem checkExplanation_msg {rule : Rule} {f : String} {e : ValidationError}
    (h : e ∈ checkExplanation rule f) : e.message = "Missing or empty explanation" := by
  unfold checkExplanation at h
  split at h
  · simp at h; rw [h]
  · simp at h

/-- Every error produced by the impact check starts with the fixed
prefix. -/
theorem checkImpact_msg {rule : Rule} {f : String} {e : ValidationError}
    (h : e ∈ checkImpact rule f) :
    ∃ x, e.message = "Invalid impact level: " ++ x := by
  unfold checkImpact at h
  split at h
  · simp at h
  · simp at h
    refine ⟨rule.impact ++ (". Must be one of: " ++ joinSep ", " VALID_IMPACTS), ?_⟩
    rw [h]
    simp [String.append_assoc]

/-- A string beginning with the impact-check prefix differs from any
string not beginning with the letter of that prefix. -/
theorem invalidMsg_ne (x m : String) (hm : m.data.head? ≠ some 'I') :
    "Invalid impact level: " ++ x ≠ m := by
  intro h
  apply hm
  rw [← h]
  rfl

/-- Membership in the validator's output is membership in one of the four
checks. -/
theorem validateRule_mem {rule : Rule} {f : String} {e : ValidationError} :
    e ∈ validateRule rule f ↔
      e ∈ checkTitle rule f ∨ e ∈ checkExplanation rule f ∨
      e ∈ checkExamples rule f ∨ e ∈ checkImpact rule f := by
  simp [validateRule, List.mem_append, or_assoc]

/-- C8 fails as stated: a rule file whose frontmatter declares
`impact: UNKNOWN_LEVEL` but which is otherwise empty reports four errors,
not exactly one. -/
theorem c8_counterexample :
    fmGet (fmOf "---\nimpact: UNKNOWN_LEVEL\n---\n") "impact" = some "UNKNOWN_LEVEL" ∧
    (validateRule (parseRule "---\nimpact: UNKNOWN_LEVEL\n---\n") "f").length = 4 := by
  decide

/-- C8 (amended): for a rule file whose frontmatter declares
`impact: UNKNOWN_LEVEL` and which passes the title, explanation and
examples checks, validation reports exactly one error, whose message names
the invalid value and lists all six valid impact levels. -/
theorem c8_invalid_impact (text f : String)
    (himp : fmGet (fmOf text) "impact" = some "UNKNOWN_LEVEL")
    (ht : checkTitle (parseRule text) f = [])
    (hx : checkExplanation (parseRule text) f = [])
    (hex : checkExamples (parseRule text) f = []) :
    validateRule (parseRule text) f =
      [⟨f, "Invalid impact level: UNKNOWN_LEVEL. Must be one of: CRITICAL, HIGH, MEDIUM-HIGH, MEDIUM, LOW-MEDIUM, LOW"⟩] := by
  have himpact : (parseRule text).impact = "UNKNOWN_LEVEL" := by
    simp [parseRule, mergeFM, himp, orDefault]
  have hmsg : "Invalid impact level: " ++ "UNKNOWN_LEVEL" ++ ". Must be one of: "
                ++ joinSep ", " VALID_IMPACTS
              = "Invalid impact level: UNKNOWN_LEVEL. Must be one of: CRITICAL, HIGH, MEDIUM-HIGH, MEDIUM, LOW-MEDIUM, LOW" := by
    decide
  rw [validateRule, ht, hx, hex, checkImpact, himpact, if_neg (by decide), hmsg]
  rfl

/-- Witness for C8 (amended) at a concrete, otherwise-valid rule file. -/
theorem c8_invalid_impact_witness :
    validateRule
      (parseRule "---\nimpact: UNKNOWN_LEVEL\n---\n## T\nSome explanation here\n**Incorrect:**\n```ts\nbad()\n```")
      "skill/rule.md" =
    [⟨"skill/rule.md", "Invalid impact level: UNKNOWN_LEVEL. Must be one of: CRITICAL, HIGH, MEDIUM-HIGH, MEDIUM, LOW-MEDIUM, LOW"⟩] :=
  c8_invalid_impact _ _ (by decide) (by decide) (by decide) (by decide)

/-- C2 fails as stated: inside the fenced block of the example below, the
line carrying the Impact marker is consumed by the Impact branch (which
precedes the in-code-block branch in the source), so it is not accumulated
into the example's code, and it sets the rule's impact and description
from within the block. -/
theorem c2_counterexample :
    (parseRule "## T\n**Correct:**\n```ts\n**Impact: HIGH (boom)**\ncode();\n```").examples
      = [⟨"Correct", none, "code();", some "ts", none⟩] ∧
    (parseRule "## T\n**Correct:**\n```ts\n**Impact: HIGH (boom)**\ncode();\n```").impact
      = "HIGH" ∧
    (parseRule "## T\n**Correct:**\n```ts\n**Impact: HIGH (boom)**\ncode();\n```").impactDescription
      = some "boom" := by
  decide

/-- C2 (amended): while the parser is inside a fenced code block, every
line that does not contain the Impact marker and is not a fence line is
accumulated verbatim into the block's content with nothing else changed
(in particular label lines and reference lines receive no interpretation);
a line containing the Impact marker, however, is handled by the Impact
branch even inside the block: it is not accumulated, though it alters no
example content either. -/
theorem c2_in_block (st : ScanState) (line : String) (hcb : st.inCodeBlock = true) :
    (includesStr line "**Impact:" = false → strStarts line "```" = false →
       step st line = { st with codeBlockContent := st.codeBlockContent ++ [line] }) ∧
    (includesStr line "**Impact:" = true →
       (step st line).codeBlockContent = st.codeBlockContent ∧
       (step st line).inCodeBlock = st.inCodeBlock ∧
       (step st line).examples = st.examples ∧
       (step st line).currentExample = st.currentExample) := by
  constructor
  · intro h1 h2
    simp [step, h1, h2, hcb]
  · intro h1
    rcases hfi : findImpact line.data with _ | ⟨g, d⟩ <;> simp [step, h1, hfi]

/-- Witness for C2 (amended): a label line inside a code block is stored
verbatim, and an Impact line inside a code block is dropped from the
content. -/
theorem c2_in_block_witness :
    step { initState with inCodeBlock := true, codeBlockContent := ["x"] } "**Correct:**"
      = { initState with inCodeBlock := true, codeBlockContent := ["x", "**Correct:**"] } ∧
    (step { initState with inCodeBlock := true, codeBlockContent := ["x"] } "**Impact: LOW**").codeBlockContent
      = ["x"] := by
  refine ⟨?_, ?_⟩
  · exact ((c2_in_block { initState with inCodeBlock := true, codeBlockContent := ["x"] }
      "**Correct:**" rfl).1 (by decide) (by decide)).trans (by decide)
  · exact ((c2_in_block { initState with inCodeBlock := true, codeBlockContent := ["x"] }
      "**Impact: LOW**" rfl).2 (by decide)).1

/-- C4: the third validator check.  The subset in question
(`codeExamplesOf`) is exactly the examples whose code is non-empty after
trimming; when the subset is empty the check reports "Missing code
examples"; when it is non-empty but carries neither an incorrect-style nor
a correct-style label it reports "Missing incorrect or correct examples";
otherwise it reports neither message. -/
theorem c4_examples_check (rule : Rule) (f : String) (hne : rule.examples ≠ []) :
    codeExamplesOf rule = rule.examples.filter (fun e => !(jsTrim e.code == "")) ∧
    (codeExamplesOf rule = [] →
       (⟨f, "Missing code examples"⟩ : ValidationError) ∈ validateRule rule f ∧
       (⟨f, "Missing incorrect or correct examples"⟩ : ValidationError) ∉ validateRule rule f) ∧
    (codeExamplesOf rule ≠ [] → hasIncorrectLabel (codeExamplesOf rule) = false →
       hasCorrectLabel (codeExamplesOf rule) = false →
       (⟨f, "Missing incorrect or correct examples"⟩ : ValidationError) ∈ validateRule rule f ∧
       (⟨f, "Missing code examples"⟩ : ValidationError) ∉ validateRule rule f) ∧
    (codeExamplesOf rule ≠ [] →
       (hasIncorrectLabel (codeExamplesOf rule) = true ∨
        hasCorrectLabel (codeExamplesOf rule) = true) →
       (⟨f, "Missing code examples"⟩ : ValidationError) ∉ validateRule rule f ∧
       (⟨f, "Missing incorrect or correct examples"⟩ : ValidationError) ∉ validateRule rule f) := by
  refine ⟨?_, ?_, ?_, ?_⟩
  · unfold codeExamplesOf
    apply List.filter_congr
    intro e _
    cases hc : e.code == "" with
    | false => simp
    | true =>
      have he : e.code = "" := by simpa using hc
      rw [he]
      decide
  · intro hce
    have hex : checkExamples rule f = [⟨f, "Missing code examples"⟩] := by
      rw [checkExamples, if_neg hne, if_pos hce]
    constructor
    · exact validateRule_mem.mpr (Or.inr (Or.inr (Or.inl (by rw [hex]; exact List.mem_singleton.mpr rfl))))
    · intro h
      rcases validateRule_mem.mp h with h | h | h | h
      · have := checkTitle_msg h; simp at this
      · have := checkExplanation_msg h; simp at this
      · rw [hex] at h; simp at h
      · obtain ⟨x, hx⟩ := checkImpact_msg h
        have hx' : "Missing incorrect or correct examples" = "Invalid impact level: " ++ x := hx
        exact invalidMsg_ne x "Missing incorrect or correct examples" (by decide) hx'.symm
  · intro hce hinc hcor
    have hex : checkExamples rule f = [⟨f, "Missing incorrect or correct examples"⟩] := by
      rw [checkExamples, if_neg hne, if_neg hce, if_pos ⟨hinc, hcor⟩]
    constructor
    · exact validateRule_mem.mpr (Or.inr (Or.inr (Or.inl (by rw [hex]; exact List.mem_singleton.mpr rfl))))
    · intro h
      rcases validateRule_mem.mp h with h | h | h | h
      · have := checkTitle_msg h; simp at this
      · have := checkExplanation_msg h; simp at this
      · rw [hex] at h; simp at h
      · obtain ⟨x, hx⟩ := checkImpact_msg h
        have hx' : "Missing code examples" = "Invalid impact level: " ++ x := hx
        exact invalidMsg_ne x "Missing code examples" (by decide) hx'.symm
  · intro hce hlab
    have hex : checkExamples rule f = [] := by
      rw [checkExamples, if_neg hne, if_neg hce, if_neg]
      intro hand
      rcases hlab with h | h
      · rw [hand.1] at h; exact Bool.false_ne_true h
      · rw [hand.2] at h; exact Bool.false_ne_true h
    constructor <;> intro h <;> rcases validateRule_mem.mp h with h | h | h | h
    · have := checkTitle_msg h; simp at this
    · have := checkExplanation_msg h; simp at this
    · rw [hex] at h; simp at h
    · obtain ⟨x, hx⟩ := checkImpact_msg h
      have hx' : "Missing code examples" = "Invalid impact level: " ++ x := hx
      exact invalidMsg_ne x "Missing code examples" (by decide) hx'.symm
    · have := checkTitle_msg h; simp at this
    · have := checkExplanation_msg h; simp at this
    · rw [hex] at h; simp at h
    · obtain ⟨x, hx⟩ := checkImpact_msg h
      have hx' : "Missing incorrect or correct examples" = "Invalid impact level: " ++ x := hx
      exact invalidMsg_ne x "Missing incorrect or correct examples" (by decide) hx'.symm

/-- Witness for C4 on a concrete rule with one trimmed-empty and one
labeled code example. -/
theorem c4_examples_check_witness :
    (⟨"f", "Missing code examples"⟩ : ValidationError)
      ∉ validateRule ⟨"T", "HIGH", none, "why",
          [⟨"Whitespace only", none, "  ", none, none⟩,
           ⟨"Incorrect", none, "bad()", none, none⟩], none, none⟩ "f" ∧
    (⟨"f", "Missing incorrect or correct examples"⟩ : ValidationError)
      ∉ validateRule ⟨"T", "HIGH", none, "why",
          [⟨"Whitespace only", none, "  ", none, none⟩,
           ⟨"Incorrect", none, "bad()", none, none⟩], none, none⟩ "f" :=
  (c4_examples_check ⟨"T", "HIGH", none, "why",
      [⟨"Whitespace only", none, "  ", none, none⟩,
       ⟨"Incorrect", none, "bad()", none, none⟩], none, none⟩ "f"
    (by decide)).2.2.2 (by decide) (Or.inl (by decide))

/-- C10: when the body has no second-level heading line, the title search
leaves the index at zero and the sectioning pass starts at the second body
line, so the first body line contributes nothing to the parsed record (it
may be replaced by any other non-heading line without changing the
result), while the body-inferred title is left empty. -/
theorem c10_no_heading (l l' : String) (rest : List String)
    (h1 : isH2 l = false) (h2 : isH2 l' = false)
    (h3 : ∀ x ∈ rest, isH2 x = false) :
    parseFromLines (l :: rest) = parseFromLines (l' :: rest) ∧
    (parseFromLines (l :: rest)).title = "" := by
  have hall : ∀ x ∈ l :: rest, isH2 x = false := by
    intro x hx
    rcases List.mem_cons.mp hx with rfl | hx
    · exact h1
    · exact h3 x hx
  have hall' : ∀ x ∈ l' :: rest, isH2 x = false := by
    intro x hx
    rcases List.mem_cons.mp hx with rfl | hx
    · exact h2
    · exact h3 x hx
  have hs : scanned (l :: rest) = scanned (l' :: rest) := by
    unfold scanned
    rw [titleOf_no_heading hall, titleOf_no_heading hall']
    rfl
  constructor
  · rw [parseFromLines, parseFromLines, titleOf_no_heading hall,
        titleOf_no_heading hall', hs]
  · show (titleOf (l :: rest)).1 = ""
    rw [titleOf_no_heading hall]

/-- C5: without frontmatter, the parsed title is the first second-level
heading of the body with markers and whitespace stripped; all lines before
that heading contribute nothing (they may be replaced by any other
heading-free prefix); and without any such heading the title is empty. -/
theorem c5_title_extraction (text : String) (hfm : fmSplit (crlfNorm text) = none) :
    (∀ pre hline rest, bodyLines text = pre ++ hline :: rest →
       (∀ x ∈ pre, isH2 x = false) → isH2 hline = true →
       (parseRule text).title = stripHeading hline ∧
       (∀ pre', (∀ x ∈ pre', isH2 x = false) →
          parseFromLines (pre' ++ hline :: rest) = parseFromLines (bodyLines text))) ∧
    ((∀ x ∈ bodyLines text, isH2 x = false) → (parseRule text).title = "") := by
  have hfm0 : fmOf text = [] := by simp [fmOf, extractFM, hfm]
  have htitle : (parseRule text).title = (parseFromLines (bodyLines text)).title := by
    simp [parseRule, mergeFM, hfm0, fmGet, orDefault]
  constructor
  · intro pre hline rest hdec hpre hh
    constructor
    · rw [htitle]
      show (titleOf (bodyLines text)).1 = stripHeading hline
      rw [hdec, titleOf_append_cons hpre hh]
    · intro pre' hpre'
      rw [hdec, parseFromLines, parseFromLines,
          titleOf_append_cons hpre hh, titleOf_append_cons hpre' hh,
          scanned_append_cons hpre hh, scanned_append_cons hpre' hh]
  · intro hall
    rw [htitle]
    show (titleOf (bodyLines text)).1 = ""
    rw [titleOf_no_heading hall]

/-- Witness for C5 at a concrete file with a preamble line before the
heading, plus a concrete heading-free file. -/
theorem c5_title_extraction_witness :
    (parseRule "intro preamble\n## The Title\nbody prose").title = "The Title" ∧
    parseFromLines (["other line"] ++ "## The Title" :: ["body prose"])
      = parseFromLines (bodyLines "intro preamble\n## The Title\nbody prose") ∧
    (parseRule "just prose\nwith no heading").title = "" := by
  refine ⟨?_, ?_, ?_⟩
  · exact ((c5_title_extraction "intro preamble\n## The Title\nbody prose" (by decide)).1
      ["intro preamble"] "## The Title" ["body prose"] (by decide) (by decide) (by decide)).1.trans
      (by decide)
  · exact ((c5_title_extraction "intro preamble\n## The Title\nbody prose" (by decide)).1
      ["intro preamble"] "## The Title" ["body prose"] (by decide) (by decide) (by decide)).2
      ["other line"] (by decide)
  · exact (c5_title_extraction "just prose\nwith no heading" (by decide)).2 (by decide)

/-- A line that is neither a fence line nor a label line can neither open
an example nor change the example list, provided no example is open and
the parser is not inside a code block. -/
theorem step_keeps_no_example {st : ScanState} {line : String}
    (hfence : strStarts line "```" = false) (hlabel : labelOfLine line = none)
    (h1 : st.examples = []) (h2 : st.currentExample = none) (h3 : st.inCodeBlock = false) :
    (step st line).examples = [] ∧ (step st line).currentExample = none ∧
    (step st line).inCodeBlock = false := by
  by_cases hi : includesStr line "**Impact:" = true
  · rcases hfi : findImpact line.data with _ | ⟨g, d⟩ <;> simp [step, hi, hfi, h1, h2, h3]
  · have hi' : includesStr line "**Impact:" = false := by simpa using hi
    by_cases hr : (strStarts line "Reference:" || strStarts line "References:") = true
    · simp [step, hi', hfence, h3, hlabel, hr, pushCurrent, h2, h1]
    · have hr' : (strStarts line "Reference:" || strStarts line "References:") = false := by
        simpa using hr
      simp only [step, hi', hfence, h3, hlabel, hr', Bool.false_eq_true, if_false]
      split
      · split <;> simp [h1, h2, h3]
      · exact ⟨h1, h2, h3⟩

/-- Folding the state machine over fence-free, label-free lines keeps the
example list empty and no example open. -/
theorem foldl_keeps_no_example (lines : List String)
    (h : ∀ l ∈ lines, strStarts l "```" = false ∧ labelOfLine l = none) :
    ∀ st : ScanState, st.examples = [] → st.currentExample = none → st.inCodeBlock = false →
      (lines.foldl step st).examples = [] ∧ (lines.foldl step st).currentExample = none ∧
      (lines.foldl step st).inCodeBlock = false := by
  induction lines with
  | nil => intro st h1 h2 h3; exact ⟨h1, h2, h3⟩
  | cons a as ih =>
    intro st h1 h2 h3
    have ha := h a (List.mem_cons_self a as)
    have hstep := step_keeps_no_example ha.1 ha.2 h1 h2 h3
    exact ih (fun l hl => h l (List.mem_cons_of_mem _ hl)) _ hstep.1 hstep.2.1 hstep.2.2

/-- C3 fails as stated: a body with an example label but no fenced block
produces a non-empty example list (one example with empty code), and
validation reports a missing-code error rather than the missing-examples
error. -/
theorem c3_counterexample :
    (∀ l ∈ bodyLines "## T\n**Incorrect:**", strStarts l "```" = false) ∧
    (parseRule "## T\n**Incorrect:**").examples
      = [⟨"Incorrect", none, "", some "typescript", none⟩] ∧
    (validateRule (parseRule "## T\n**Incorrect:**") "f").map (fun e => e.message)
      = ["Missing or empty explanation", "Missing code examples"] := by
  decide

/-- C3 (amended): for a rule file whose body contains no fenced code block
and no example-label line, the parsed example list is empty and validation
reports the missing-examples error. -/
theorem c3_no_code_blocks (text f : String)
    (hfence : ∀ l ∈ bodyLines text, strStarts l "```" = false)
    (hlabel : ∀ l ∈ bodyLines text, labelOfLine l = none) :
    (parseRule text).examples = [] ∧
    (⟨f, "Missing examples (need at least one incorrect and one correct example)"⟩ : ValidationError)
      ∈ validateRule (parseRule text) f := by
  have hsub : ∀ l ∈ (bodyLines text).drop ((titleOf (bodyLines text)).2 + 1),
      strStarts l "```" = false ∧ labelOfLine l = none := by
    intro l hl
    have hmem := List.drop_subset _ _ hl
    exact ⟨hfence l hmem, hlabel l hmem⟩
  have hfold := foldl_keeps_no_example _ hsub initState rfl rfl rfl
  have hexamples : (parseFromLines (bodyLines text)).examples = [] := by
    show (scanned (bodyLines text)).examples = []
    unfold scanned
    simp [pushCurrent, hfold.2.1, hfold.1]
  have hrule : (parseRule text).examples = [] := by
    simp [parseRule, mergeFM, hexamples]
  refine ⟨hrule, ?_⟩
  apply validateRule_mem.mpr
  refine Or.inr (Or.inr (Or.inl ?_))
  rw [checkExamples, if_pos hrule]
  exact List.mem_singleton.mpr rfl

/-- Witness for C3 (amended) at a concrete file with prose only. -/
theorem c3_no_code_blocks_witness :
    (parseRule "## T\nJust prose here\nand more prose").examples = [] ∧
    (⟨"f", "Missing examples (need at least one incorrect and one correct example)"⟩ : ValidationError)
      ∈ validateRule (parseRule "## T\nJust prose here\nand more prose") "f" :=
  c3_no_code_blocks "## T\nJust prose here\nand more prose" "f" (by decide) (by decide)

/-- Witness for C10: replacing a non-heading first body line changes
nothing, and the inferred title is empty. -/
theorem c10_no_heading_witness :
    parseFromLines ["preamble", "prose", "**Incorrect:**"]
      = parseFromLines ["### deep heading", "prose", "**Incorrect:**"] ∧
    (parseFromLines ["preamble", "prose", "**Incorrect:**"]).title = "" :=
  c10_no_heading "preamble" "### deep heading" ["prose", "**Incorrect:**"]
    (by decide) (by decide) (by decide)

/-- When a frontmatter split succeeds, the input decomposes around the
opening delimiter and the earliest later occurrence of the delimiter, and
extraction parses the slice between them with the remainder as body. -/
theorem fmSplit_some {t fmtext body : String}
    (h : fmSplit t = some (fmtext, body)) :
    t.data = dashes ++ fmtext.data ++ dashes ++ body.data ∧
    (∀ a b : List Char, t.data = dashes ++ a ++ dashes ++ b →
       fmtext.data.length ≤ a.length) ∧
    extractFM t = (parseFMBlock (jsTrim fmtext), body) := by
  unfold fmSplit at h
  split at h
  · rename_i hs
    cases hsp : splitTripleDash (t.data.drop 3) with
    | none => rw [hsp] at h; exact absurd h (by simp)
    | some p =>
      obtain ⟨a, b⟩ := p
      rw [hsp] at h
      simp only [Option.some.injEq, Prod.mk.injEq] at h
      obtain ⟨hf, hb⟩ := h
      subst hf
      subst hb
      have hstart : t.data = dashes ++ t.data.drop 3 := by
        have h3 := startsWithL_eq hs
        simpa [dashes] using h3
      have hsplit := splitTripleDash_eq hsp
      have hfs : fmSplit t = some (⟨a⟩, ⟨b⟩) := by
        unfold fmSplit
        rw [if_pos hs, hsp]
      refine ⟨?_, ?_, ?_⟩
      · rw [hstart, hsplit]
        rfl
      · intro a' b' heq
        apply splitTripleDash_min hsp
        rw [heq]
        rfl
      · simp [extractFM, hfs]
  · exact absurd h (by simp)

/-- A frontmatter split succeeds exactly when the text starts with the
delimiter and the delimiter occurs again at index three or later. -/
theorem fmSplit_isSome_iff (t : String) :
    (fmSplit t).isSome = true ↔
      ∃ a b : List Char, t.data = dashes ++ a ++ dashes ++ b := by
  constructor
  · intro hs
    cases hfs : fmSplit t with
    | none => rw [hfs] at hs; simp at hs
    | some p =>
      obtain ⟨fmtext, body⟩ := p
      exact ⟨fmtext.data, body.data, (fmSplit_some hfs).1⟩
  · rintro ⟨a, b, heq⟩
    have hsw : startsWithL t.data dashes = true := by
      rw [heq]
      exact startsWithL_of_append dashes (a ++ dashes ++ b)
    have hdrop : t.data.drop 3 = a ++ dashes ++ b := by
      rw [heq]
      rfl
    unfold fmSplit
    rw [if_pos hsw, hdrop]
    have hex := splitTripleDash_exists a b
    cases hsp : splitTripleDash (a ++ dashes ++ b) with
    | none => rw [hsp] at hex; simp at hex
    | some p => obtain ⟨x, y⟩ := p; rfl

/-- C6 fails as stated: the source's closing-delimiter search is a plain
`indexOf("---", 3)` with no own-line requirement.  Below, no line after
the first is the delimiter, yet a frontmatter block is carved out of the
middle of the key/value line. -/
theorem c6_counterexample :
    specOwnLineDelims "---\nkey: a---b\nrest" = false ∧
    extractFM "---\nkey: a---b\nrest" = ([("key", "a")], "b\nrest") := by
  decide

/-- C6 (amended): a frontmatter block is extracted iff the text begins
with the characters `---` and `---` occurs again at index ≥ 3, not
necessarily on a line of its own; the raw block is the text between index
3 and the earliest such occurrence, the body is the remainder after that
occurrence, and otherwise the whole text is the body with an empty
mapping. -/
theorem c6_fm_extraction (t : String) :
    ((fmSplit t).isSome = true ↔
       ∃ a b : List Char, t.data = dashes ++ a ++ dashes ++ b) ∧
    (∀ fmtext body, fmSplit t = some (fmtext, body) →
       t.data = dashes ++ fmtext.data ++ dashes ++ body.data ∧
       (∀ a b : List Char, t.data = dashes ++ a ++ dashes ++ b →
          fmtext.data.length ≤ a.length) ∧
       extractFM t = (parseFMBlock (jsTrim fmtext), body)) ∧
    (fmSplit t = none → extractFM t = ([], t)) :=
  ⟨fmSplit_isSome_iff t,
   fun _ _ h => fmSplit_some h,
   fun h => by simp [extractFM, h]⟩

/-- Witness for C6 (amended) at a concrete file with a frontmatter
block. -/
theorem c6_fm_extraction_witness :
    ("---\na: b\n---\nbody" : String).data
        = dashes ++ "\na: b\n".data ++ dashes ++ "\nbody".data ∧
    extractFM "---\na: b\n---\nbody" = ([("a", "b")], "\nbody") := by
  have h := (c6_fm_extraction "---\na: b\n---\nbody").2.1 "\na: b\n" "\nbody" (by decide)
  exact ⟨h.1, h.2.2.trans (by decide)⟩

/-- The errors contributed by a run whose directory listings all
succeed. -/
def okErrors (skills : List SkillRun) : List ValidationError :=
  skills.flatMap (fun s =>
    match s.dir with
    | .ok fs => skillFileErrors s fs
    | .error _ => [])

/-- When every directory listing succeeds, the run processes every skill
and accumulates exactly the per-skill errors. -/
theorem runSkills_all_ok :
    ∀ (skills : List SkillRun), (∀ s ∈ skills, ∃ fs, s.dir = Except.ok fs) →
    ∀ (acc : List ValidationError) (k : Nat),
      runSkills skills acc k =
        ⟨acc ++ okErrors skills,
         if acc ++ okErrors skills = [] then 0 else 1,
         k + skills.length⟩ := by
  intro skills
  induction skills with
  | nil =>
    intro _ acc k
    simp [runSkills, okErrors]
  | cons s rest ih =>
    intro h acc k
    obtain ⟨fs, hfs⟩ := h s (List.mem_cons_self s rest)
    have hrest := ih (fun x hx => h x (List.mem_cons_of_mem _ hx))
      (acc ++ skillFileErrors s fs) (k + 1)
    have hOk : okErrors (s :: rest) = skillFileErrors s fs ++ okErrors rest := by
      rw [okErrors, List.flatMap_cons, hfs, ← okErrors]
    simp only [runSkills]
    rw [hfs]
    show runSkills rest (acc ++ skillFileErrors s fs) (k + 1) = _
    rw [hrest, hOk, ← List.append_assoc]
    congr 1
    simp only [List.length_cons]
    omega

/-- A directory-listing failure aborts the run at that skill with exit
status 1, regardless of the skills that follow. -/
theorem runSkills_dir_fail (s : SkillRun) (rest : List SkillRun) (e : String)
    (hs : s.dir = Except.error e) :
    ∀ (pre : List SkillRun), (∀ p ∈ pre, ∃ fs, p.dir = Except.ok fs) →
    ∀ (acc : List ValidationError) (k : Nat),
      ∃ acc2, runSkills (pre ++ s :: rest) acc k = ⟨acc2, 1, k + pre.length⟩ := by
  intro pre
  induction pre with
  | nil =>
    intro _ acc k
    refine ⟨acc, ?_⟩
    simp only [List.nil_append, runSkills]
    rw [hs]
    rfl
  | cons p pre' ih =>
    intro hpre acc k
    obtain ⟨fs, hfs⟩ := hpre p (List.mem_cons_self p pre')
    obtain ⟨acc2, hacc⟩ := ih (fun x hx => hpre x (List.mem_cons_of_mem _ hx))
      (acc ++ skillFileErrors p fs) (k + 1)
    refine ⟨acc2, ?_⟩
    simp only [List.cons_append, runSkills]
    rw [hfs]
    show runSkills (pre' ++ s :: rest) (acc ++ skillFileErrors p fs) (k + 1) = _
    rw [hacc]
    congr 1
    simp only [List.length_cons]
    omega

/-- C7: a file whose read/parse throws is recovered locally as a single
error carrying the `Failed to parse:` prefix and the run continues across
all remaining files and skills; a directory-listing failure instead ends
the run at that skill with exit status 1, without processing the remaining
skills. -/
theorem c7_error_propagation (skills : List SkillRun) :
    ((∀ s ∈ skills, ∃ fs, s.dir = Except.ok fs) →
       (runValidate skills).skillsProcessed = skills.length ∧
       (∀ s ∈ skills, ∀ fs, s.dir = Except.ok fs →
          ∀ f ∈ fs, isRuleFileName f.name = true →
          ∀ m, f.outcome = Except.error m →
          (⟨s.name ++ "/" ++ f.name, "Failed to parse: " ++ m⟩ : ValidationError)
            ∈ (runValidate skills).errors)) ∧
    (∀ pre s rest e, skills = pre ++ s :: rest →
       (∀ p ∈ pre, ∃ fs, p.dir = Except.ok fs) → s.dir = Except.error e →
       (runValidate skills).exitCode = 1 ∧
       (runValidate skills).skillsProcessed = pre.length) := by
  constructor
  · intro h
    rw [runValidate, runSkills_all_ok skills h [] 0]
    constructor
    · simp
    · intro s hs fs hfs f hf hname m hout
      simp only [List.nil_append]
      apply List.mem_flatMap.mpr
      refine ⟨s, hs, ?_⟩
      rw [hfs]
      apply List.mem_flatMap.mpr
      refine ⟨f, List.mem_filter.mpr ⟨hf, hname⟩, ?_⟩
      rw [fileErrors, hout]
      exact List.mem_singleton.mpr rfl
  · intro pre s rest e hdec hpre hs
    subst hdec
    obtain ⟨acc2, hacc⟩ := runSkills_dir_fail s rest e hs pre hpre [] 0
    rw [runValidate, hacc]
    exact ⟨rfl, by simp⟩

/-- Witness for C7: a throwing file is recovered and the run completes;
a failing directory listing stops the run after the first skill. -/
theorem c7_error_propagation_witness :
    (runValidate [⟨"s1", Except.ok
        [⟨"a.md", Except.error "boom"⟩,
         ⟨"b.md", Except.ok ⟨"T", "HIGH", none, "e",
            [⟨"Incorrect", none, "x", none, none⟩], none, none⟩⟩]⟩]).skillsProcessed = 1 ∧
    (⟨"s1/a.md", "Failed to parse: boom"⟩ : ValidationError)
      ∈ (runValidate [⟨"s1", Except.ok
          [⟨"a.md", Except.error "boom"⟩,
           ⟨"b.md", Except.ok ⟨"T", "HIGH", none, "e",
              [⟨"Incorrect", none, "x", none, none⟩], none, none⟩⟩]⟩]).errors ∧
    (runValidate [⟨"s1", Except.ok []⟩, ⟨"s2", Except.error "no such directory"⟩,
        ⟨"s3", Except.ok []⟩]).exitCode = 1 ∧
    (runValidate [⟨"s1", Except.ok []⟩, ⟨"s2", Except.error "no such directory"⟩,
        ⟨"s3", Except.ok []⟩]).skillsProcessed = 1 := by
  have hok : ∀ s ∈ [(⟨"s1", Except.ok
      [⟨"a.md", Except.error "boom"⟩,
       ⟨"b.md", Except.ok ⟨"T", "HIGH", none, "e",
          [⟨"Incorrect", none, "x", none, none⟩], none, none⟩⟩]⟩ : SkillRun)],
      ∃ fs, s.dir = Except.ok fs := by
    intro s hs
    rw [List.mem_singleton.mp hs]
    exact ⟨_, rfl⟩
  have hfail := (c7_error_propagation [⟨"s1", Except.ok []⟩,
      ⟨"s2", Except.error "no such directory"⟩, ⟨"s3", Except.ok []⟩]).2
    [⟨"s1", Except.ok []⟩] ⟨"s2", Except.error "no such directory"⟩
    [⟨"s3", Except.ok []⟩] "no such directory" rfl
    (by intro p hp; rw [List.mem_singleton.mp hp]; exact ⟨_, rfl⟩) rfl
  refine ⟨((c7_error_propagation _).1 hok).1,
          ((c7_error_propagation _).1 hok).2 _ (List.mem_singleton.mpr rfl) _ rfl
            ⟨"a.md", Except.error "boom"⟩ (by simp) (by decide) "boom" rfl,
          hfail.1, hfail.2⟩

end ValidateRules
